import Mathlib

/-!
Verification of the TVM (time-value-of-money) functions `rates` and `solve_r`
from `business.py` of the Python-function-libraries repository.

Modelling conventions:
* Python floats are idealised as real numbers `ℝ`; the float operator `**`
  becomes `Real.rpow` (written `x ^ y` with a real exponent).
* `round(x, 10)` becomes `round10`, exact rounding of a real to 10 decimal
  places (`round` is Mathlib's nearest-integer rounding).
* The rate-kind strings accepted by `get_rType` ('i', 'd', 'v', 'delta' and
  their numeric/prefix spellings) are modelled by the enumeration `RKind`;
  the claims under study do not depend on the spelling normalisation itself.
* Python's falsy-default conventions are kept: a numeric argument passed as
  `False` is numerically equal to `0`, so an omitted `pv`, `fv`, `t` or
  `q_per_t` is encoded as `0` and an omitted rate-kind tag as `Option.none`.
  The payment argument `q` may be absent (`False`), a scalar, or a list;
  these three shapes form the type `QArg` (in Python a scalar `0` is
  `== False`, while a list never is).
* `mpmath.polyroots` is modelled as the multiset of complex roots (with
  multiplicity) of the polynomial whose coefficient list, leading
  coefficient first, is the assembled cash-flow sequence; the
  `isinstance(_, mpf)` filter keeps exactly the roots with imaginary part 0.
* The `get` selector of `rates`/`solve_r` merely projects one entry of the
  returned dict; we return the whole bundle and use Lean projections.
-/

noncomputable section

open Polynomial

/-- The four-entry dict `{'i':_, 'd':_, 'v':_, 'delta':_}` returned by `rates`. -/
structure RateBundle where
  i : ℝ
  d : ℝ
  v : ℝ
  delta : ℝ
deriving DecidableEq

/-- The four rate kinds recognised by `get_rType`. -/
inductive RKind where
  | i
  | d
  | v
  | delta
deriving DecidableEq

/-- Python's `round(x, 10)`: round to 10 decimal places. -/
def round10 (x : ℝ) : ℝ := (round (x * 10 ^ 10) : ℤ) / 10 ^ 10

/-- Source `rates.interest`: the bundle computed when `r` is an interest rate. -/
def interest (r : ℝ) : RateBundle :=
  let i := r
  let d := i / (1 + i)
  let v := 1 - d
  let delta := Real.exp i - 1
  ⟨i, d, v, delta⟩

/-- Source `rates.discount`: the bundle computed when `r` is a discount rate. -/
def discount (r : ℝ) : RateBundle :=
  let d := r
  let i := d / (1 - d)
  let v := 1 - d
  let delta := Real.exp i - 1
  ⟨i, d, v, delta⟩

/-- Source `rates.getV`: the bundle computed when `r` is a discount factor. -/
def getV (r : ℝ) : RateBundle :=
  let v := r
  let d := 1 - v
  let i := 1 / v - 1
  let delta := Real.exp i - 1
  ⟨i, d, v, delta⟩

/-- Source `rates.delta`: the bundle computed when `r` is a force of interest. -/
def deltaKind (r : ℝ) : RateBundle :=
  let delta := r
  let i := Real.log (1 + delta)
  let d := i / (1 + i)
  let v := 1 - d
  ⟨i, d, v, delta⟩

/-- Source `rates.roundValues`: round all four dict values to 10 decimal places. -/
def roundValues (b : RateBundle) : RateBundle :=
  ⟨round10 b.i, round10 b.d, round10 b.v, round10 b.delta⟩

/-- The dispatch on `r_is` in the body of `rates`. -/
def ratesBundle (k : RKind) (r : ℝ) : RateBundle :=
  match k with
  | RKind.i => interest r
  | RKind.d => discount r
  | RKind.v => getV r
  | RKind.delta => deltaKind r

/-- Dispatch then round: the value of `answer` after `roundValues` in `rates`. -/
def ratesRounded (k : RKind) (r : ℝ) : RateBundle := roundValues (ratesBundle k r)

/-- Function `rates(r, r_is, q_per_t)` (the `get` projection omitted, see header).
An absent tag (`r_is` falsy) means interest; a falsy `q_per_t` (0) means no
frequency rescale.  The recursive call `rates(r=i)` of the source passes all
defaults, so it is exactly `ratesRounded RKind.i i` and is unfolded here. -/
def rates (r : ℝ) (r_is : Option RKind) (q_per_t : ℝ) : RateBundle :=
  let k := r_is.getD RKind.i
  let answer := ratesRounded k r
  if q_per_t ≠ 0 then
    ratesRounded RKind.i ((1 + answer.i) ^ ((1 : ℝ) / q_per_t) - 1)
  else answer

/-- The shape of the `q` argument of `solve_r`: absent (`False`), a scalar,
or a list.  In Python `q == False` holds for the scalar `0` but never for a
list. -/
inductive QArg where
  | absent
  | scalar (x : ℝ)
  | stream (xs : List ℝ)

/-- Step `q *= t` when `t` is truthy: Python list repetition (a negative `t`
yields the empty list, as in Python). -/
def rep (t : ℤ) (qs : List ℝ) : List ℝ :=
  if t ≠ 0 then (List.replicate t.toNat qs).flatten else qs

/-- Step `q[0] = f(q[0])` (Python raises IndexError on an empty list; the claims
under study only reach this with a nonempty list). -/
def headMap (f : ℝ → ℝ) : List ℝ → List ℝ
  | [] => []
  | x :: xs => f x :: xs

/-- Step `q[-1] = f(q[-1])` (same nonemptiness caveat as `headMap`). -/
def modifyLast (f : ℝ → ℝ) : List ℝ → List ℝ
  | [] => []
  | [x] => [f x]
  | x :: y :: xs => x :: modifyLast f (y :: xs)

/-- The cash-flow list built by the payment-stream branch of `solve_r`:
repetition by `t`, then the `pv` adjustment (`q[0] -= pv` when annuity-due,
else prepend `-pv`), then the `fv` adjustment (`q[-1] -= fv` when not
annuity-due, else append `-fv`); each step only when the argument is truthy. -/
def assemble (pv : ℝ) (qs : List ℝ) (t : ℤ) (fv : ℝ) (due : Bool) : List ℝ :=
  let q1 := rep t qs
  let q2 :=
    if pv ≠ 0 ∧ due = true then headMap (fun x => x - pv) q1
    else if pv ≠ 0 then (-pv) :: q1
    else q1
  if fv ≠ 0 ∧ due = false then modifyLast (fun x => x - fv) q2
  else if fv ≠ 0 ∧ due = true then q2 ++ [-fv]
  else q2

/-- The value of the caller's list object after `solve_r` returns, when the
caller passed a Python list for `q`.  In CPython, `q *= t`, `q[0] = q[0]-pv`
and `q.append(-fv)` mutate the caller's object in place, while
`q = [-pv] + q` rebinds the local name `q` to a fresh list, detaching all
later in-place updates from the caller's object. -/
def callerListAfter (pv : ℝ) (qs : List ℝ) (t : ℤ) (fv : ℝ) (due : Bool) : List ℝ :=
  let q1 := rep t qs
  let q2 := if pv ≠ 0 ∧ due = true then headMap (fun x => x - pv) q1 else q1
  if pv ≠ 0 ∧ due = false then q2
  else if fv ≠ 0 ∧ due = false then modifyLast (fun x => x - fv) q2
  else if fv ≠ 0 ∧ due = true then q2 ++ [-fv]
  else q2

/-- The assembled list read as polynomial coefficients, leading coefficient
first, exactly as `mpmath.polyroots` reads its argument. -/
def polyOfCoeffs (l : List ℝ) : Polynomial ℂ :=
  l.foldl (fun p a => p * Polynomial.X + Polynomial.C (a : ℂ)) 0

/-- The real members of `polyroots(q)` (the roots `mpmath` reports as `mpf`):
complex roots with imaginary part 0, taken with multiplicity. -/
def realRoots (l : List ℝ) : Multiset ℝ :=
  ((polyOfCoeffs l).roots.filter (fun z => z.im = 0)).map Complex.re

/-- The coercion of a real into `WithBot ℝ`, named so that `Multiset.map`
elaborates it as a plain function. -/
def toBot (x : ℝ) : WithBot ℝ := (x : WithBot ℝ)

/-- Value `max(real)` after `if real == []: real = [1]`: the maximum real root,
or the sentinel 1 when there is none. -/
def maxRealRoot (l : List ℝ) : ℝ :=
  (((realRoots l).map toBot).sup).unbot' 1

/-- Python's `max` over a list (the claims only apply it to nonempty lists;
the `[]` value here is junk standing in for Python's ValueError). -/
def pythonMax : List ℝ → ℝ
  | [] => 0
  | x :: xs => xs.foldl max x

/-- Python's `min` over a list (same caveat as `pythonMax`). -/
def pythonMin : List ℝ → ℝ
  | [] => 0
  | x :: xs => xs.foldl min x

/-- The rate produced by the payment-stream branch of `solve_r` from the
assembled list: max real root minus one, overridden by the sentinel 0 when
`max(q) < 0 or min(q) > 0` (all payments strictly negative or all strictly
positive). -/
def streamRate (l : List ℝ) : ℝ :=
  if pythonMax l < 0 ∨ 0 < pythonMin l then 0 else maxRealRoot l - 1

/-- The no-payment branch of `solve_r`: `(fv / pv) ** (1 / t) - 1` after
defaulting a falsy `pv` or `fv` to 1. -/
def noPaymentRate (pv : ℝ) (t : ℤ) (fv : ℝ) : ℝ :=
  ((if fv = 0 then 1 else fv) / (if pv = 0 then 1 else pv)) ^ ((1 : ℝ) / (t : ℝ)) - 1

/-- The rate `r` computed by `solve_r` before the final call to `rates`. -/
def solveRateRaw (pv : ℝ) (q : QArg) (t : ℤ) (fv : ℝ) (due : Bool) : ℝ :=
  match q with
  | QArg.absent => noPaymentRate pv t fv
  | QArg.scalar x =>
      if x = 0 then noPaymentRate pv t fv
      else streamRate (assemble pv [x] t fv due)
  | QArg.stream xs => streamRate (assemble pv xs t fv due)

/-- Function `solve_r(pv, q, t, fv, annuity_due, q_per_t)` (the `get` projection
omitted): solve for the rate, then delegate to `rates`, passing the
reciprocal `1 / q_per_t` when `q_per_t` is truthy. -/
def solve_r (pv : ℝ) (q : QArg) (t : ℤ) (fv : ℝ) (due : Bool) (q_per_t : ℝ) :
    RateBundle :=
  rates (solveRateRaw pv q t fv due) Option.none
    (if q_per_t ≠ 0 then 1 / q_per_t else 0)

end

/-! ### Helper lemmas -/

/-- Evaluate `round10` at a real whose scaling by `10 ^ 10` is an integer. -/
theorem round10_eval (x : ℝ) (n : ℤ) (h : x * 10 ^ 10 = (n : ℝ)) :
    round10 x = (n : ℝ) / 10 ^ 10 := by
  rw [round10, h, round_intCast]

/-- Rounding `round10` moves a real by at most half of the last kept decimal place. -/
theorem abs_round10_sub_le (x : ℝ) : |round10 x - x| ≤ 1 / (2 * 10 ^ 10) := by
  have h := abs_sub_round (x * 10 ^ 10)
  have h1 : round10 x - x = ((round (x * 10 ^ 10) : ℤ) - x * 10 ^ 10) / 10 ^ 10 := by
    rw [round10]; ring
  have h2 : |round10 x - x| = |x * 10 ^ 10 - (round (x * 10 ^ 10) : ℤ)| / 10 ^ 10 := by
    rw [h1, abs_div, abs_of_pos (by norm_num : (0:ℝ) < 10 ^ 10), abs_sub_comm]
  rw [h2]
  calc |x * 10 ^ 10 - (round (x * 10 ^ 10) : ℤ)| / 10 ^ 10
      ≤ (1 / 2) / 10 ^ 10 := by
        exact (div_le_div_iff_of_pos_right (by norm_num : (0:ℝ) < 10 ^ 10)).mpr h
    _ = 1 / (2 * 10 ^ 10) := by norm_num

/-- The interest-rate field of `rates` with no tag and no rescale. -/
theorem rates_i_plain (r : ℝ) : (rates r none 0).i = round10 r := by
  simp [rates, ratesRounded, ratesBundle, interest, roundValues]

/-- A nonempty multiset of reals, coerced into `WithBot ℝ`, has a supremum
attained by one of its members. -/
theorem sup_coe_attained (s : Multiset ℝ) (hs : s ≠ 0) :
    ∃ m, m ∈ s ∧ (∀ x ∈ s, x ≤ m) ∧
      (s.map toBot).sup = toBot m := by
  induction s using Multiset.induction_on with
  | empty => exact absurd rfl hs
  | cons a s ih =>
    rcases eq_or_ne s 0 with h | h
    · subst h
      refine ⟨a, Multiset.mem_cons_self a 0, ?_, by simp⟩
      intro x hx
      rcases Multiset.mem_cons.mp hx with h' | h'
      · exact le_of_eq h'
      · exact absurd h' (Multiset.not_mem_zero x)
    · obtain ⟨m, hm, hmax, hsup⟩ := ih h
      refine ⟨max a m, ?_, ?_, ?_⟩
      · rcases max_choice a m with h' | h' <;> rw [h']
        · exact Multiset.mem_cons_self a s
        · exact Multiset.mem_cons_of_mem hm
      · intro x hx
        rcases Multiset.mem_cons.mp hx with h' | h'
        · exact h' ▸ le_max_left a m
        · exact le_trans (hmax x h') (le_max_right a m)
      · rw [Multiset.map_cons, Multiset.sup_cons, hsup]
        simp only [toBot, ← WithBot.coe_sup]

/-- When the polynomial has a real root, `maxRealRoot` is an attained
maximum of the real roots. -/
theorem maxRealRoot_spec {l : List ℝ} (h : realRoots l ≠ 0) :
    maxRealRoot l ∈ realRoots l ∧ ∀ x ∈ realRoots l, x ≤ maxRealRoot l := by
  obtain ⟨m, hm, hmax, hsup⟩ := sup_coe_attained (realRoots l) h
  have he : maxRealRoot l = m := by
    rw [maxRealRoot, hsup]
    simp only [toBot, WithBot.unbot'_coe]
  rw [he]
  exact ⟨hm, hmax⟩

theorem foldl_max_lt {c : ℝ} :
    ∀ (xs : List ℝ) (x : ℝ), x < c → (∀ y ∈ xs, y < c) → xs.foldl max x < c
  | [], x, hx, _ => hx
  | y :: ys, x, hx, hys => by
      simp only [List.foldl_cons]
      exact foldl_max_lt ys (max x y)
        (max_lt hx (hys y (List.mem_cons_self y ys)))
        (fun z hz => hys z (List.mem_cons_of_mem y hz))

theorem foldl_min_gt {c : ℝ} :
    ∀ (xs : List ℝ) (x : ℝ), c < x → (∀ y ∈ xs, c < y) → c < xs.foldl min x
  | [], x, hx, _ => hx
  | y :: ys, x, hx, hys => by
      simp only [List.foldl_cons]
      exact foldl_min_gt ys (min x y)
        (lt_min hx (hys y (List.mem_cons_self y ys)))
        (fun z hz => hys z (List.mem_cons_of_mem y hz))

theorem pythonMax_lt_zero {l : List ℝ} (hne : l ≠ []) (h : ∀ x ∈ l, x < 0) :
    pythonMax l < 0 := by
  cases l with
  | nil => exact absurd rfl hne
  | cons x xs =>
      exact foldl_max_lt xs x (h x (List.mem_cons_self x xs))
        (fun y hy => h y (List.mem_cons_of_mem x hy))

theorem pythonMin_pos {l : List ℝ} (hne : l ≠ []) (h : ∀ x ∈ l, 0 < x) :
    0 < pythonMin l := by
  cases l with
  | nil => exact absurd rfl hne
  | cons x xs =>
      exact foldl_min_gt xs x (h x (List.mem_cons_self x xs))
        (fun y hy => h y (List.mem_cons_of_mem x hy))

/-! ### Concrete evaluations used by counterexamples and witnesses -/

theorem polyOfCoeffs_one_zero : polyOfCoeffs [1, 0] = (Polynomial.X : Polynomial ℂ) := by
  simp [polyOfCoeffs, List.foldl]

theorem realRoots_one_zero : realRoots [1, 0] = {0} := by
  rw [realRoots, polyOfCoeffs_one_zero, Polynomial.roots_X]
  simp [Multiset.filter_singleton, Complex.zero_im]

theorem streamRate_one_zero : streamRate [1, 0] = -1 := by
  have hcond : ¬ (pythonMax [1, 0] < 0 ∨ 0 < pythonMin [1, 0]) := by
    simp only [pythonMax, pythonMin, List.foldl]
    norm_num
  rw [streamRate, if_neg hcond, maxRealRoot, realRoots_one_zero]
  simp [toBot, Multiset.sup_singleton, WithBot.unbot'_coe]

/-! ### The claims -/

/-- Claim C3: with the default tag, `rates` returns `d = i/(1+i)`,
`v = 1 - d` and `delta = exp(i) - 1`, each rounded to 10 decimal places,
and with the force-of-interest tag its `i` entry is `ln(1+delta)` rounded;
in particular the `delta` entry is `exp(i) - 1`, not `ln(1+i)`. -/
theorem rates_field_formulas (r x : ℝ) (_hr : -1 < r) :
    (rates r none 0).d = round10 (r / (1 + r))
    ∧ (rates r none 0).v = round10 (1 - r / (1 + r))
    ∧ (rates r none 0).delta = round10 (Real.exp r - 1)
    ∧ (rates x (some RKind.delta) 0).i = round10 (Real.log (1 + x)) := by
  refine ⟨?_, ?_, ?_, ?_⟩ <;>
    simp [rates, ratesRounded, ratesBundle, interest, deltaKind, roundValues]

/-- Witness for C3 at `r = 0`, `x = 0`. -/
theorem rates_field_formulas_witness :
    -1 < (0:ℝ)
    ∧ ((rates 0 none 0).d = round10 (0 / (1 + 0))
      ∧ (rates 0 none 0).v = round10 (1 - 0 / (1 + 0))
      ∧ (rates 0 none 0).delta = round10 (Real.exp 0 - 1)
      ∧ (rates 0 (some RKind.delta) 0).i = round10 (Real.log (1 + 0))) :=
  ⟨by norm_num, rates_field_formulas 0 0 (by norm_num)⟩

/-- Claim C4: on the no-payment path the rate handed to the rate converter
is `(fv / pv) ^ (1 / t) - 1`, with an absent (falsy) `pv` or `fv`
defaulting to 1, and `solve_r` then delegates that rate to `rates`. -/
theorem solve_r_no_payment_closed_form (pv fv : ℝ) (t : ℤ) (due : Bool) (qpt : ℝ) :
    solveRateRaw pv QArg.absent t fv due
      = ((if fv = 0 then 1 else fv) / (if pv = 0 then 1 else pv)) ^ ((1 : ℝ) / (t : ℝ)) - 1
    ∧ solve_r pv QArg.absent t fv due qpt
      = rates (solveRateRaw pv QArg.absent t fv due) none
          (if qpt ≠ 0 then 1 / qpt else 0) :=
  ⟨rfl, rfl⟩

/-- Claim C5 counterexample: `solve_r(pv=-100, fv=110, t=1)` does not give
interest rate 0.10; the code computes `(110 / -100) ^ 1 - 1 = -2.1`. -/
theorem solve_r_neg_pv_example :
    (solve_r (-100) QArg.absent 1 110 false 0).i = -2.1
    ∧ ((-2.1 : ℝ) ≠ 0.10) := by
  constructor
  · have hr : solveRateRaw (-100) QArg.absent 1 110 false = -2.1 := by
      simp only [solveRateRaw, noPaymentRate]
      norm_num
    have : (solve_r (-100) QArg.absent 1 110 false 0)
        = rates (-2.1) none 0 := by
      simp only [solve_r, hr]
      norm_num
    rw [this, rates_i_plain, round10_eval (-2.1) (-21000000000) (by norm_num)]
    norm_num
  · norm_num

/-- Claim C5 amended: with the present value entered as the positive 100,
`solve_r(pv=100, fv=110, t=1)` yields interest rate 0.10. -/
theorem solve_r_pos_pv_example :
    (solve_r 100 QArg.absent 1 110 false 0).i = 0.10 := by
  have hr : solveRateRaw 100 QArg.absent 1 110 false = 0.1 := by
    simp only [solveRateRaw, noPaymentRate]
    norm_num
  have : (solve_r 100 QArg.absent 1 110 false 0) = rates 0.1 none 0 := by
    simp only [solve_r, hr]
    norm_num
  rw [this, rates_i_plain, round10_eval 0.1 1000000000 (by norm_num)]
  norm_num

/-- Claim C6: a truthy frequency multiplier makes `rates` rescale the
already-rounded interest entry as `(1+i)^(1/q) - 1` and recompute the whole
bundle from it with no tag; in particular `rates(i, frequency=12)['i']` is
`round10((1 + round10 i)^(1/12) - 1)`. -/
theorem rates_frequency_rescale (r : ℝ) (k : Option RKind) (q : ℝ) (hq : q ≠ 0) :
    rates r k q
      = ratesRounded RKind.i
          ((1 + (ratesRounded (k.getD RKind.i) r).i) ^ ((1 : ℝ) / q) - 1)
    ∧ (rates r none 12).i = round10 ((1 + round10 r) ^ ((1 : ℝ) / 12) - 1) := by
  constructor
  · simp [rates, hq]
  · simp [rates, ratesRounded, ratesBundle, interest, roundValues]

/-- Witness for C6 at `r = 0`, no tag, `q = 12`. -/
theorem rates_frequency_rescale_witness :
    (12 : ℝ) ≠ 0
    ∧ (rates 0 none 12
        = ratesRounded RKind.i
            ((1 + (ratesRounded ((none : Option RKind).getD RKind.i) 0).i)
              ^ ((1 : ℝ) / 12) - 1)
      ∧ (rates 0 none 12).i = round10 ((1 + round10 0) ^ ((1 : ℝ) / 12) - 1)) :=
  ⟨by norm_num, rates_frequency_rescale 0 none 12 (by norm_num)⟩

/-- Claim C7: a truthy `q_per_t` makes `solve_r` pass the reciprocal
`1 / q_per_t` to `rates`, so the solved rate is rescaled with exponent
`q_per_t` itself: the bundle is recomputed from
`(1 + round10 r) ^ q_per_t - 1`. -/
theorem solve_r_reciprocal_frequency (pv : ℝ) (q : QArg) (t : ℤ) (fv : ℝ)
    (due : Bool) (qpt : ℝ) (h : qpt ≠ 0) :
    solve_r pv q t fv due qpt
      = rates (solveRateRaw pv q t fv due) none (1 / qpt)
    ∧ solve_r pv q t fv due qpt
      = ratesRounded RKind.i
          ((1 + round10 (solveRateRaw pv q t fv due)) ^ qpt - 1) := by
  have h1 : (1 : ℝ) / qpt ≠ 0 := one_div_ne_zero h
  constructor
  · simp [solve_r, h]
  · simp [solve_r, rates, h, h1, ratesRounded, ratesBundle, interest,
      roundValues, one_div_one_div]

/-- Witness for C7 at `pv = 1`, no payments, `t = 1`, `fv = 1`,
`q_per_t = 2`. -/
theorem solve_r_reciprocal_frequency_witness :
    (2 : ℝ) ≠ 0
    ∧ (solve_r 1 QArg.absent 1 1 false 2
        = rates (solveRateRaw 1 QArg.absent 1 1 false) none (1 / 2)
      ∧ solve_r 1 QArg.absent 1 1 false 2
        = ratesRounded RKind.i
            ((1 + round10 (solveRateRaw 1 QArg.absent 1 1 false)) ^ (2:ℝ) - 1)) :=
  ⟨by norm_num, solve_r_reciprocal_frequency 1 QArg.absent 1 1 false 2 (by norm_num)⟩

/-- Claim C10: a numeric argument supplied as 0 is indistinguishable from an
omitted one: `q = 0` takes the no-payment path exactly as an absent `q`
does, and a `pv` or `fv` supplied as 0 behaves as the default 1 on that
path. -/
theorem solve_r_zero_is_absent (pv fv : ℝ) (t : ℤ) (due : Bool) (qpt : ℝ) :
    solve_r pv (QArg.scalar 0) t fv due qpt = solve_r pv QArg.absent t fv due qpt
    ∧ solve_r 0 QArg.absent t fv due qpt = solve_r 1 QArg.absent t fv due qpt
    ∧ solve_r pv QArg.absent t 0 due qpt = solve_r pv QArg.absent t 1 due qpt := by
  refine ⟨?_, ?_, ?_⟩
  · simp [solve_r, solveRateRaw]
  · simp [solve_r, solveRateRaw, noPaymentRate]
  · simp [solve_r, solveRateRaw, noPaymentRate]

/-- Claim C1: the payment-stream branch assembles the cash-flow list by
prepending `-pv` (annuity-immediate) or subtracting `pv` from the first
payment (annuity-due), and subtracting `fv` from the last payment
(annuity-immediate) or appending `-fv` (annuity-due); the list is read as
polynomial coefficients, non-real roots are discarded, and — whenever the
degenerate-sign sentinel does not fire and a real root exists — the rate
before conversion is the maximum real root minus one. -/
theorem solve_r_stream_pipeline (pv fv : ℝ) (qs : List ℝ) (t : ℤ) (due : Bool)
    (hpv : pv ≠ 0) (hfv : fv ≠ 0) (_hqs : qs ≠ []) (_ht : 0 ≤ t) :
    assemble pv qs t fv false = modifyLast (fun x => x - fv) ((-pv) :: rep t qs)
    ∧ assemble pv qs t fv true = headMap (fun x => x - pv) (rep t qs) ++ [-fv]
    ∧ solveRateRaw pv (QArg.stream qs) t fv due = streamRate (assemble pv qs t fv due)
    ∧ (¬ (pythonMax (assemble pv qs t fv due) < 0
          ∨ 0 < pythonMin (assemble pv qs t fv due)) →
        realRoots (assemble pv qs t fv due) ≠ 0 →
        ∃ m, m ∈ realRoots (assemble pv qs t fv due)
          ∧ (∀ x ∈ realRoots (assemble pv qs t fv due), x ≤ m)
          ∧ solveRateRaw pv (QArg.stream qs) t fv due = m - 1) := by
  refine ⟨?_, ?_, rfl, ?_⟩
  · simp [assemble, hpv, hfv]
  · simp [assemble, hpv, hfv]
  · intro hcond hroots
    obtain ⟨hmem, hmax⟩ := maxRealRoot_spec hroots
    exact ⟨maxRealRoot (assemble pv qs t fv due), hmem, hmax, by
      simp only [solveRateRaw, streamRate, if_neg hcond]⟩

/-- Witness for C1 at `pv = 1`, `qs = [2]`, `t = 0`, `fv = 1`,
annuity-immediate. -/
theorem solve_r_stream_pipeline_witness :
    ((1:ℝ) ≠ 0 ∧ (1:ℝ) ≠ 0 ∧ ([2] : List ℝ) ≠ [] ∧ (0:ℤ) ≤ 0)
    ∧ (assemble 1 [2] 0 1 false = modifyLast (fun x => x - 1) ((-1) :: rep 0 [2])
      ∧ assemble 1 [2] 0 1 true = headMap (fun x => x - 1) (rep 0 [2]) ++ [-1]
      ∧ solveRateRaw 1 (QArg.stream [2]) 0 1 false
          = streamRate (assemble 1 [2] 0 1 false)
      ∧ (¬ (pythonMax (assemble 1 [2] 0 1 false) < 0
            ∨ 0 < pythonMin (assemble 1 [2] 0 1 false)) →
          realRoots (assemble 1 [2] 0 1 false) ≠ 0 →
          ∃ m, m ∈ realRoots (assemble 1 [2] 0 1 false)
            ∧ (∀ x ∈ realRoots (assemble 1 [2] 0 1 false), x ≤ m)
            ∧ solveRateRaw 1 (QArg.stream [2]) 0 1 false = m - 1)) :=
  ⟨⟨by norm_num, by norm_num, by simp, le_refl 0⟩,
    solve_r_stream_pipeline 1 1 [2] 0 false (by norm_num) (by norm_num)
      (by simp) (le_refl 0)⟩

/-- Claim C2 counterexample: the degenerate-schedule test is strict, not
non-strict.  The assembled schedule `[1, 0]` is entirely non-negative, yet
the rate fed to the converter is `-1` (the root of `1*x + 0` minus one),
not the sentinel 0. -/
theorem solve_r_nonneg_schedule_not_sentinel :
    assemble 0 [1, 0] 0 0 false = [1, 0]
    ∧ ((0:ℝ) ≤ 1 ∧ (0:ℝ) ≤ 0)
    ∧ solveRateRaw 0 (QArg.stream [1, 0]) 0 0 false = -1
    ∧ ((-1 : ℝ) ≠ 0) := by
  have ha : assemble 0 [1, 0] 0 0 false = [1, 0] := by
    simp [assemble, rep]
  refine ⟨ha, ⟨by norm_num, le_refl 0⟩, ?_, by norm_num⟩
  show streamRate (assemble 0 [1, 0] 0 0 false) = -1
  rw [ha, streamRate_one_zero]

/-- Claim C2 amended: when every payment of the assembled schedule is
strictly negative, or every payment strictly positive (the source tests
`max(q) < 0 or min(q) > 0`), the rate fed to the converter is the sentinel
0, regardless of magnitudes. -/
theorem solve_r_strict_sign_sentinel (pv fv : ℝ) (qs : List ℝ) (t : ℤ)
    (due : Bool) (hne : assemble pv qs t fv due ≠ [])
    (h : (∀ x ∈ assemble pv qs t fv due, x < 0)
        ∨ (∀ x ∈ assemble pv qs t fv due, 0 < x)) :
    solveRateRaw pv (QArg.stream qs) t fv due = 0 := by
  have hcond : pythonMax (assemble pv qs t fv due) < 0
      ∨ 0 < pythonMin (assemble pv qs t fv due) := by
    rcases h with h | h
    · exact Or.inl (pythonMax_lt_zero hne h)
    · exact Or.inr (pythonMin_pos hne h)
  simp only [solveRateRaw, streamRate, if_pos hcond]

/-- Witness for C2 (amended) at the spec's own example
`solve_r(pv=100, q=-10, t=5, fv=0)`: the assembled schedule is
`[-100, -10, -10, -10, -10, -10]`, entirely strictly negative, and the
rate is 0. -/
theorem solve_r_strict_sign_sentinel_witness :
    assemble 100 [-10] 5 0 false = [-100, -10, -10, -10, -10, -10]
    ∧ assemble 100 [-10] 5 0 false ≠ []
    ∧ (∀ x ∈ assemble 100 [-10] 5 0 false, x < 0)
    ∧ solveRateRaw 100 (QArg.stream [-10]) 5 0 false = 0 := by
  have he : assemble 100 [-10] 5 0 false = [-100, -10, -10, -10, -10, -10] := by
    norm_num [assemble, rep, List.replicate]
  have hne : assemble 100 [-10] 5 0 false ≠ [] := by
    rw [he]; simp
  have hall : ∀ x ∈ assemble 100 [-10] 5 0 false, x < 0 := by
    rw [he]
    intro x hx
    simp only [List.mem_cons, List.not_mem_nil, or_false] at hx
    rcases hx with h | h | h | h | h | h <;> rw [h] <;> norm_num
  exact ⟨he, hne, hall,
    solve_r_strict_sign_sentinel 100 0 [-10] 5 false hne (Or.inl hall)⟩

/-- Claim C9 counterexample: `solve_r` is not free of caller-visible
mutation.  With a caller-supplied list `[1, 2]` and `t = 2`, the in-place
repetition `q *= t` leaves the caller's list as `[1, 2, 1, 2]`. -/
theorem solve_r_mutates_caller_list :
    callerListAfter 0 [1, 2] 2 0 false = [1, 2, 1, 2]
    ∧ ([1, 2, 1, 2] : List ℝ) ≠ [1, 2] := by
  constructor
  · norm_num [callerListAfter, rep, List.replicate]
  · simp

/-- Claim C9 amended: the caller's list survives unchanged in the cases
where no in-place update reaches it: when `t` is absent or 1 (so `q *= t`
does not change the value), `pv` is supplied and the call is
annuity-immediate, the rebinding `q = [-pv] + q` detaches the caller's
object before the `fv` update.  (Same-value determinism of the result is
immediate in a value semantics, since the result depends only on argument
values.) -/
theorem solve_r_caller_list_safe (pv fv : ℝ) (qs : List ℝ) (t : ℤ)
    (ht : t = 0 ∨ t = 1) (hpv : pv ≠ 0) :
    callerListAfter pv qs t fv false = qs := by
  have hrep : rep t qs = qs := by
    rcases ht with h | h <;> subst h <;> simp [rep]
  simp [callerListAfter, hrep, hpv]

/-- Witness for C9 (amended) at `pv = 5`, `qs = [3]`, `t = 1`, `fv = 7`. -/
theorem solve_r_caller_list_safe_witness :
    ((1:ℤ) = 0 ∨ (1:ℤ) = 1) ∧ (5:ℝ) ≠ 0
    ∧ callerListAfter 5 [3] 1 7 false = [3] :=
  ⟨Or.inr rfl, by norm_num,
    solve_r_caller_list_safe 5 7 [3] 1 (Or.inr rfl) (by norm_num)⟩

/-- The discount-rate field of `rates` with no tag and no rescale. -/
theorem rates_d_plain (r : ℝ) : (rates r none 0).d = round10 (r / (1 + r)) := by
  simp [rates, ratesRounded, ratesBundle, interest, roundValues]

/-- The interest field of `rates` under the discount tag, no rescale. -/
theorem rates_i_of_d (r : ℝ) :
    (rates r (some RKind.d) 0).i = round10 (r / (1 - r)) := by
  simp [rates, ratesRounded, ratesBundle, discount, roundValues]

/-- Claim C8: the d-form round-trip.  For `-1 < i ≤ 1`,
`rates(rates(i)['d'], rate_kind='d')['i']` recovers `i` within the
10-decimal rounding tolerance (here bounded by `10⁻⁹`): the conversion
`d/(1-d)` inverts `i/(1+i)` up to the two roundings. -/
theorem rates_d_roundtrip (i : ℝ) (h1 : -1 < i) (h2 : i ≤ 1) :
    |(rates (rates i none 0).d (some RKind.d) 0).i - i| ≤ 1 / 10 ^ 9 := by
  set d : ℝ := i / (1 + i) with hd_def
  have hstep : (rates (rates i none 0).d (some RKind.d) 0).i
      = round10 (round10 d / (1 - round10 d)) := by
    rw [rates_d_plain, rates_i_of_d]
  set d' : ℝ := round10 d with hd'_def
  have hi : (0:ℝ) < 1 + i := by linarith
  have hi2 : 1 + i ≤ 2 := by linarith
  -- 1 - d = 1/(1+i), hence 1 - d ≥ 1/2 on the hypothesis range
  have h1d : 1 - d = 1 / (1 + i) := by
    rw [hd_def]
    field_simp
  have h1d_half : (1:ℝ) / 2 ≤ 1 - d := by
    rw [h1d]
    rw [div_le_div_iff₀ (by norm_num) hi]
    linarith
  -- the first rounding error
  have herr1 : |d' - d| ≤ 1 / (2 * 10 ^ 10) := abs_round10_sub_le d
  have herr1' : d' - d ≤ 1 / (2 * 10 ^ 10) := (abs_le.mp herr1).2
  have herr1'' : -(1 / (2 * 10 ^ 10)) ≤ d' - d := (abs_le.mp herr1).1
  have h1d'_quarter : (1:ℝ) / 4 ≤ 1 - d' := by
    have : 1 - d' = (1 - d) - (d' - d) := by ring
    rw [this]
    have hsmall : (1:ℝ) / (2 * 10 ^ 10) ≤ 1 / 4 := by norm_num
    linarith
  have h1d_pos : (0:ℝ) < 1 - d := by linarith
  have h1d'_pos : (0:ℝ) < 1 - d' := by linarith
  -- i is exactly d/(1-d)
  have hi_eq : d / (1 - d) = i := by
    rw [h1d, hd_def]
    field_simp
  -- the pre-rounding result differs from i by the quotient of the errors
  have hdiff : d' / (1 - d') - i = (d' - d) / ((1 - d') * (1 - d)) := by
    rw [← hi_eq]
    field_simp
    ring
  have hden : (1:ℝ) / 8 ≤ (1 - d') * (1 - d) := by nlinarith
  have habs1 : |d' / (1 - d') - i| ≤ 8 / (2 * 10 ^ 10) := by
    rw [hdiff, abs_div, abs_of_pos (by nlinarith : (0:ℝ) < (1 - d') * (1 - d))]
    rw [div_le_iff₀ (by nlinarith : (0:ℝ) < (1 - d') * (1 - d))]
    nlinarith [abs_nonneg (d' - d)]
  -- the second rounding error, then combine
  have herr2 : |round10 (d' / (1 - d')) - d' / (1 - d')| ≤ 1 / (2 * 10 ^ 10) :=
    abs_round10_sub_le (d' / (1 - d'))
  rw [hstep]
  calc |round10 (d' / (1 - d')) - i|
      ≤ |round10 (d' / (1 - d')) - d' / (1 - d')| + |d' / (1 - d') - i| :=
        abs_sub_le _ _ _
    _ ≤ 1 / (2 * 10 ^ 10) + 8 / (2 * 10 ^ 10) := add_le_add herr2 habs1
    _ ≤ 1 / 10 ^ 9 := by norm_num

/-- Witness for C8 at `i = 0`. -/
theorem rates_d_roundtrip_witness :
    -1 < (0:ℝ) ∧ (0:ℝ) ≤ 1
    ∧ |(rates (rates 0 none 0).d (some RKind.d) 0).i - 0| ≤ 1 / 10 ^ 9 :=
  ⟨by norm_num, by norm_num, rates_d_roundtrip 0 (by norm_num) (by norm_num)⟩
